import Mathlib

/-!
Verification of the preprocessing pipeline of `parallel_wavegan/bin/preprocessing.py`.

The per-utterance job `_process_single_file` validates a waveform (mono,
matching sample rate, peak amplitude at most 1), extracts a log-mel
feature matrix via `logmelfilterbank` (librosa STFT with centered
reflect padding), edge-pads and truncates the waveform so that its
length equals `len(feats) * hop_size`, optionally applies a global gain
and skips the utterance on clipping, and otherwise writes the
`{id}-wave.npy` and `{id}-feats.npy` arrays.  The batch runs all jobs
through joblib `Parallel`, which propagates the first raised exception.

The length/validation/gain logic is embedded over `ℚ` (the source uses
no transcendental function there); the real-valued entries of
`logmelfilterbank` are embedded over `ℝ` with the mel filterbank matrix
of `librosa.filters.mel` kept as an explicit parameter (it is built by
the external library from `sampling_rate`, `fft_size`, `num_mels`,
`fmin`, `fmax` and is not part of this repository).
-/

namespace PWG

/-- Equality of `Except` results is decidable when both component types
have decidable equality; used to evaluate the embedded job on concrete
inputs. -/
instance exceptDecEq {ε α : Type} [DecidableEq ε] [DecidableEq α] :
    DecidableEq (Except ε α) := fun a b =>
  match a, b with
  | .error e, .error f =>
    if h : e = f then .isTrue (congrArg Except.error h)
    else .isFalse (fun c => h (by cases c; rfl))
  | .error _, .ok _ => .isFalse Except.noConfusion
  | .ok _, .error _ => .isFalse Except.noConfusion
  | .ok a, .ok b =>
    if h : a = b then .isTrue (congrArg Except.ok h)
    else .isFalse (fun c => h (by cases c; rfl))

/-- Configuration record: the fields of the yaml config that
`_process_single_file` reads (`sampling_rate`, `fft_size`, `hop_size`,
`global_gain_scale`); window/mel parameters of `logmelfilterbank` are
carried separately by the real-valued embedding below. -/
structure Config where
  sampling_rate : ℕ
  fft_size : ℕ
  hop_size : ℕ
  global_gain_scale : ℚ
deriving Repr, DecidableEq

/-- One utterance as delivered by the audio source on the directory
path: an id, the number of array dimensions of the loaded signal
(`len(x.shape)` in the source), its sample rate, and the flat sample
sequence. -/
structure Utt where
  utt_id : String
  ndim : ℕ
  fs : ℕ
  samples : List ℚ
deriving Repr, DecidableEq

/-- `np.abs(x).max()` of the source, with value 0 on the empty list
(numpy raises there; no claim touches the empty case). -/
def maxAbs (l : List ℚ) : ℚ :=
  (l.map (fun v => |v|)).foldr max 0

/-- The three `assert` statements at lines 116-121 of
`preprocessing.py`, in source order, as a fallible check. -/
def validateUtt (cfg : Config) (u : Utt) : Except String Unit :=
  if u.ndim ≠ 1 then
    .error (u.utt_id ++ " seems to be multi-channel signal.")
  else if u.fs ≠ cfg.sampling_rate then
    .error (u.utt_id ++ " seems to have a different sampling rate.")
  else if 1 < maxAbs u.samples then
    .error (u.utt_id ++ " seems to be different from 16 bit PCM.")
  else
    .ok ()

/-- The scaling `x /= (1 << (16 - 1))` at line 110 of the source,
applied to raw integer PCM samples on the wavscp input path. -/
def pcmNormalize (s : List ℤ) : List ℚ :=
  s.map (fun v => (v : ℚ) / ((1 <<< (16 - 1) : ℕ) : ℚ))

/-- Total length of the waveform after librosa's centered padding:
`fft_size / 2` samples are prepended and appended
(`pad_mode="reflect"`), so the padded length is `L + 2 * (fft_size / 2)`. -/
def reflectPadLen (L fft : ℕ) : ℕ :=
  L + 2 * (fft / 2)

/-- Number of STFT frames produced by
`librosa.stft(x, n_fft=fft_size, hop_length=hop_size, center=True)`:
`(len(padded) - fft_size) / hop_size + 1` with the centered reflect
padding above.  This is `len(feats)` in `_process_single_file`. -/
def numFrames (L fft hop : ℕ) : ℕ :=
  (reflectPadLen L fft - fft) / hop + 1

/-- `np.pad(x, (0, p), mode="edge")`: append `p` copies of the last
sample (0 on the empty list, where numpy raises). -/
def edgePad (x : List ℚ) (p : ℕ) : List ℚ :=
  x ++ List.replicate p (x.getLastD 0)

/-- Lines 134-135 of the source: pad the waveform with `fft_size`
trailing edge samples, then truncate to `len(feats) * hop_size`. -/
def alignWaveform (cfg : Config) (x : List ℚ) : List ℚ :=
  (edgePad x cfg.fft_size).take
    (numFrames x.length cfg.fft_size cfg.hop_size * cfg.hop_size)

/-- The clipping test at line 141: after multiplying by the gain `g`,
is the peak amplitude strictly above 1? -/
def did_clip (g : ℚ) (x : List ℚ) : Bool :=
  1 < maxAbs (x.map (fun v => v * g))

/-- The per-utterance job of `preprocessing.py` (directory path), with
the output sink abstracted to the list of file names written.  A raised
`AssertionError` is an `Except.error`; the clipping branch returns
normally having written nothing. -/
def _process_single_file (cfg : Config) (u : Utt) :
    Except String (List String) := do
  _ ← validateUtt cfg u
  let feats_len := numFrames u.samples.length cfg.fft_size cfg.hop_size
  let x := alignWaveform cfg u.samples
  if feats_len * cfg.hop_size ≠ x.length then
    throw "AssertionError"
  else if 0 < cfg.global_gain_scale then
    if did_clip cfg.global_gain_scale x then
      pure []
    else
      pure [u.utt_id ++ "-wave.npy", u.utt_id ++ "-feats.npy"]
  else
    pure [u.utt_id ++ "-wave.npy", u.utt_id ++ "-feats.npy"]

/-- joblib `Parallel` over the delayed jobs (lines 153-154): all
results are collected when every job returns; the first raised
exception propagates and aborts the batch. -/
def parallelRun (cfg : Config) : List Utt → Except String (List (List String))
  | [] => .ok []
  | u :: rest => do
    let r ← _process_single_file cfg u
    let rs ← parallelRun cfg rest
    pure (r :: rs)

/-- The Hann analysis window `scipy.signal.get_window("hann", N)`
(`window="hann"`, `win_length=None`, so the window spans `fft_size`
samples; the source's defaults). -/
noncomputable def hannWindow (N n : ℕ) : ℝ :=
  1 / 2 - 1 / 2 * Real.cos (2 * Real.pi * n / N)

/-- numpy `mode="reflect"` index arithmetic: the (possibly negative or
overlong) position `z` is folded into `[0, L)` by repeated reflection
about the first and last samples (period `2 L - 2`); degenerate for
`L ≤ 1`, where numpy raises. -/
def reflectIndex (L : ℕ) (z : ℤ) : ℕ :=
  if L ≤ 1 then 0
  else
    let p : ℤ := 2 * (L : ℤ) - 2
    let m := z % p
    if m < L then m.toNat else (p - m).toNat

/-- Sample `i` of the waveform after librosa's centered reflect
padding: position `i - fft / 2` of the original signal, reflected at
the boundary. -/
noncomputable def reflectPadded (x : ℕ → ℝ) (L fft : ℕ) (i : ℕ) : ℝ :=
  x (reflectIndex L ((i : ℤ) - ((fft / 2 : ℕ) : ℤ)))

/-- Entry `(k, t)` of `librosa.stft(x, n_fft=fft, hop_length=hop,
center=True, pad_mode="reflect")`: the windowed DFT of the `fft`
samples of the padded signal starting at `t * hop`. -/
noncomputable def stftEntry (x : ℕ → ℝ) (L fft hop : ℕ) (t k : ℕ) : ℂ :=
  ∑ n ∈ Finset.range fft,
    ((hannWindow fft n * reflectPadded x L fft (t * hop + n) : ℝ) : ℂ) *
      Complex.exp (-(2 * Real.pi * n * k / fft) * Complex.I)

/-- `np.abs(x_stft).T` of the source: the amplitude spectrogram, one
row per frame, `fft / 2 + 1` frequency bins. -/
noncomputable def ampSpectrogram (x : ℕ → ℝ) (L fft hop : ℕ) (t k : ℕ) : ℝ :=
  Complex.abs (stftEntry x L fft hop t k)

/-- `np.dot(spc, mel_basis.T)` of the source: the amplitude spectrogram
projected on the rows of the mel filterbank matrix `B` (built by
`librosa.filters.mel`, external to this repository, hence a parameter). -/
noncomputable def melEnergy (B : ℕ → ℕ → ℝ) (x : ℕ → ℝ) (L fft hop : ℕ)
    (t m : ℕ) : ℝ :=
  ∑ k ∈ Finset.range (fft / 2 + 1), ampSpectrogram x L fft hop t k * B m k

/-- Entry `(t, m)` of the feature matrix returned by `logmelfilterbank`:
`np.log10(np.maximum(eps, np.dot(spc, mel_basis.T)))`. -/
noncomputable def logmelfilterbank (x : ℕ → ℝ) (L fft hop : ℕ) (eps : ℝ)
    (B : ℕ → ℕ → ℝ) (t m : ℕ) : ℝ :=
  Real.logb 10 (max eps (melEnergy B x L fft hop t m))

end PWG

set_option allowUnsafeReducibility true

attribute [semireducible] Rat.mul Rat.div Rat.inv Rat.add Rat.sub Rat.neg

namespace PWG

theorem maxAbs_nil : maxAbs [] = 0 := rfl

theorem maxAbs_cons (a : ℚ) (l : List ℚ) :
    maxAbs (a :: l) = max |a| (maxAbs l) := rfl

/-- Scaling every sample by a nonnegative gain scales the peak
amplitude by the same factor. -/
theorem maxAbs_map_mul (g : ℚ) (hg : 0 ≤ g) (l : List ℚ) :
    maxAbs (l.map (fun v => v * g)) = maxAbs l * g := by
  induction l with
  | nil => simp [maxAbs]
  | cons a l ih =>
    simp only [List.map_cons, maxAbs_cons, ih]
    rw [abs_mul, abs_of_nonneg hg, max_mul_of_nonneg _ _ hg]

theorem pcmNormalize_nil : pcmNormalize [] = [] := rfl

theorem pcmNormalize_cons (a : ℤ) (t : List ℤ) :
    pcmNormalize (a :: t) =
      ((a : ℚ) / ((1 <<< (16 - 1) : ℕ) : ℚ)) :: pcmNormalize t := rfl

theorem two_mul_half_le (fft : ℕ) : 2 * (fft / 2) ≤ fft := by
  rw [Nat.mul_comm]
  exact Nat.div_mul_le_self fft 2

/-- When the hop does not exceed the FFT size, the frame grid never
outruns the waveform padded by `fft` trailing samples. -/
theorem numFrames_mul_le (L fft hop : ℕ) (hle : hop ≤ fft) :
    numFrames L fft hop * hop ≤ L + fft := by
  unfold numFrames reflectPadLen
  have hP : L + 2 * (fft / 2) - fft ≤ L :=
    le_trans (Nat.sub_le_sub_right (Nat.add_le_add_left (two_mul_half_le fft) L) fft)
      (le_of_eq (Nat.add_sub_cancel L fft))
  calc ((L + 2 * (fft / 2) - fft) / hop + 1) * hop
      = (L + 2 * (fft / 2) - fft) / hop * hop + hop := by ring
    _ ≤ (L + 2 * (fft / 2) - fft) + hop :=
        Nat.add_le_add_right (Nat.div_mul_le_self _ _) hop
    _ ≤ L + fft := Nat.add_le_add hP hle

theorem edgePad_length (x : List ℚ) (p : ℕ) :
    (edgePad x p).length = x.length + p := by
  simp [edgePad]

/-- The aligned waveform has exactly `frames * hop_size` samples
whenever `hop_size ≤ fft_size`. -/
theorem alignWaveform_length (cfg : Config) (x : List ℚ)
    (hle : cfg.hop_size ≤ cfg.fft_size) :
    (alignWaveform cfg x).length =
      numFrames x.length cfg.fft_size cfg.hop_size * cfg.hop_size := by
  unfold alignWaveform
  rw [List.length_take, edgePad_length]
  exact Nat.min_eq_left (numFrames_mul_le x.length cfg.fft_size cfg.hop_size hle)

theorem parallelRun_nil (cfg : Config) : parallelRun cfg [] = .ok [] := rfl

theorem parallelRun_cons (cfg : Config) (u : Utt) (rest : List Utt) :
    parallelRun cfg (u :: rest) =
      (_process_single_file cfg u).bind (fun r =>
        (parallelRun cfg rest).bind (fun rs => .ok (r :: rs))) := rfl

/-- The embedded dispatcher succeeds exactly when every job does. -/
theorem parallelRun_ok_iff (cfg : Config) (us : List Utt) :
    (∃ rs, parallelRun cfg us = .ok rs) ↔
      ∀ u ∈ us, ∃ r, _process_single_file cfg u = .ok r := by
  induction us with
  | nil => simp [parallelRun_nil]
  | cons u rest ih =>
    rw [parallelRun_cons]
    cases hj : _process_single_file cfg u with
    | error e => simp [hj, Except.bind]
    | ok r =>
      cases hr : parallelRun cfg rest with
      | error e =>
        simp only [Except.bind, hj, hr]
        constructor
        · rintro ⟨rs, h⟩; cases h
        · intro h
          rcases ih.mpr (fun v hv => h v (List.mem_cons_of_mem u hv)) with ⟨rs, hrs⟩
          rw [hr] at hrs; cases hrs
      | ok rs =>
        simp only [Except.bind, hj, hr]
        constructor
        · intro _ v hv
          rcases List.mem_cons.mp hv with h | h
          · exact ⟨r, h ▸ hj⟩
          · exact (ih.mp ⟨rs, hr⟩) v h
        · intro _; exact ⟨r :: rs, rfl⟩

/-- The dispatcher over a concatenated batch is the concatenation of
the two sub-batches' results (failures propagate from left to right). -/
theorem parallelRun_append (cfg : Config) (us vs : List Utt) :
    parallelRun cfg (us ++ vs) =
      (parallelRun cfg us).bind (fun a =>
        (parallelRun cfg vs).bind (fun b => .ok (a ++ b))) := by
  induction us with
  | nil =>
    rw [List.nil_append, parallelRun_nil]
    cases hv : parallelRun cfg vs <;> simp [Except.bind]
  | cons u us ih =>
    rw [List.cons_append, parallelRun_cons, parallelRun_cons, ih]
    cases hj : _process_single_file cfg u with
    | error e => simp [Except.bind]
    | ok r =>
      cases hu : parallelRun cfg us with
      | error e => simp [Except.bind]
      | ok a =>
        cases hv : parallelRun cfg vs <;> simp [Except.bind]

/-- C3: the validator passes exactly when the waveform is a flat
one-dimensional sample sequence, the sample rate matches the
configured one, and the peak amplitude does not exceed 1; on any other
input it raises a validation failure. -/
theorem validator_ok_iff (cfg : Config) (u : Utt) :
    validateUtt cfg u = .ok () ↔
      u.ndim = 1 ∧ u.fs = cfg.sampling_rate ∧ maxAbs u.samples ≤ 1 := by
  unfold validateUtt
  split_ifs with h1 h2 h3 <;>
    simp_all [not_lt]

/-- C4: with a positive `global_gain_scale`, the gain step flags
clipping exactly when the pre-gain peak amplitude times the gain
strictly exceeds 1; a scaled peak of exactly 1 is not flagged. -/
theorem clip_flag_iff_peak_gain_gt_one (g : ℚ) (x : List ℚ) (hg : 0 < g) :
    (did_clip g x = true ↔ 1 < maxAbs x * g) ∧
      (maxAbs x * g = 1 → did_clip g x = false) := by
  have hk : maxAbs (x.map (fun v => v * g)) = maxAbs x * g :=
    maxAbs_map_mul g (le_of_lt hg) x
  constructor
  · rw [did_clip, hk, decide_eq_true_iff]
  · intro h1
    rw [did_clip, hk, h1]
    simp

/-- C4 witness: peak 3/5 with gain 2 is flagged (6/5 > 1); peak 1/2
with gain 2 makes the scaled peak exactly 1 and is not flagged. -/
theorem clip_flag_check :
    (0 : ℚ) < 2 ∧ did_clip 2 [3/5] = true ∧ did_clip 2 [1/2] = false :=
  ⟨by decide,
   (clip_flag_iff_peak_gain_gt_one 2 [3/5] (by decide)).1.mpr (by decide),
   (clip_flag_iff_peak_gain_gt_one 2 [1/2] (by decide)).2 (by decide)⟩

/-- C6: for an even FFT size, the frame count of the extracted feature
matrix is `(len(padded) - fft_size) / hop_size + 1` for the reflect
padding rule (`fft_size` total boundary padding), which equals
`len(waveform) / hop_size + 1`. -/
theorem frame_count_formula (L fft hop : ℕ) (heven : fft % 2 = 0) :
    numFrames L fft hop = (reflectPadLen L fft - fft) / hop + 1 ∧
      numFrames L fft hop = L / hop + 1 := by
  refine ⟨rfl, ?_⟩
  have h2 : 2 * (fft / 2) = fft :=
    Nat.mul_div_cancel' (Nat.dvd_of_mod_eq_zero heven)
  unfold numFrames reflectPadLen
  rw [h2, Nat.add_sub_cancel]

/-- C6 witness: 16000 samples, `fft_size = 1024`, `hop_size = 256`
give 63 frames by both forms of the formula. -/
theorem frame_count_check :
    1024 % 2 = 0 ∧ numFrames 16000 1024 256 = (reflectPadLen 16000 1024 - 1024) / 256 + 1 ∧
      numFrames 16000 1024 256 = 16000 / 256 + 1 :=
  ⟨by decide,
   (frame_count_formula 16000 1024 256 (by decide)).1,
   (frame_count_formula 16000 1024 256 (by decide)).2⟩

/-- C8: increasing `hop_size` while holding the signal length and all
other parameters fixed never increases the frame count. -/
theorem frame_count_antitone_in_hop (L fft hop₁ hop₂ : ℕ)
    (hpos : 0 < hop₁) (hle : hop₁ ≤ hop₂) :
    numFrames L fft hop₂ ≤ numFrames L fft hop₁ := by
  unfold numFrames
  exact Nat.add_le_add_right (Nat.div_le_div_left hle hpos) 1

/-- C8 witness: at 16000 samples, doubling the hop from 256 to 512
does not increase the frame count (it drops from 63 to 32). -/
theorem frame_count_antitone_check :
    0 < 256 ∧ 256 ≤ 512 ∧ numFrames 16000 1024 512 ≤ numFrames 16000 1024 256 :=
  ⟨by decide, by decide,
   frame_count_antitone_in_hop 16000 1024 256 512 (by decide) (by decide)⟩

/-- C10: on the wavscp path, integer samples are divided by `2^15`
before validation; if every sample lies in the signed 16-bit range,
the scaled peak amplitude is at most 1, so the amplitude rejection
branch of the validator cannot fire: an utterance that is mono at the
configured rate passes. -/
theorem pcm16_scaled_in_range (cfg : Config) (i : String) (s : List ℤ)
    (h : ∀ v ∈ s, -32768 ≤ v ∧ v ≤ 32767) :
    maxAbs (pcmNormalize s) ≤ 1 ∧
      validateUtt cfg ⟨i, 1, cfg.sampling_rate, pcmNormalize s⟩ = .ok () := by
  have hden : ((1 <<< (16 - 1) : ℕ) : ℚ) = 32768 := by
    norm_num [Nat.shiftLeft_eq]
  have hall : ∀ t : List ℤ, (∀ v ∈ t, -32768 ≤ v ∧ v ≤ 32767) →
      maxAbs (pcmNormalize t) ≤ 1 := by
    intro t
    induction t with
    | nil =>
      intro _
      rw [pcmNormalize_nil, maxAbs_nil]
      norm_num
    | cons a t ih =>
      intro hb
      rw [pcmNormalize_cons, maxAbs_cons]
      refine max_le ?_ (ih (fun v hv => hb v (List.mem_cons_of_mem a hv)))
      rcases hb a (List.mem_cons_self a t) with ⟨hlo, hhi⟩
      have hc : |(a : ℚ)| ≤ 32768 := by
        rw [abs_le]
        refine ⟨by exact_mod_cast hlo, ?_⟩
        exact_mod_cast le_trans hhi (by norm_num : (32767 : ℤ) ≤ 32768)
      rw [hden, abs_div, abs_of_pos (by norm_num : (0:ℚ) < 32768)]
      rw [div_le_one (by norm_num : (0:ℚ) < 32768)]
      exact hc
  have hmax := hall s h
  refine ⟨hmax, ?_⟩
  exact (validator_ok_iff cfg ⟨i, 1, cfg.sampling_rate, pcmNormalize s⟩).mpr
    ⟨rfl, rfl, hmax⟩

/-- C1 (amended): for every waveform and every config whose hop does
not exceed the FFT size, the aligned waveform has exactly
`frames * hop_size` samples, and for a waveform that passes validation
the job returns normally (the internal length assertion never fires). -/
theorem alignment_invariant_of_hop_le_fft (cfg : Config) (u : Utt)
    (hle : cfg.hop_size ≤ cfg.fft_size) :
    (alignWaveform cfg u.samples).length =
      numFrames u.samples.length cfg.fft_size cfg.hop_size * cfg.hop_size ∧
      (validateUtt cfg u = .ok () →
        ∃ r, _process_single_file cfg u = .ok r) := by
  have hlen := alignWaveform_length cfg u.samples hle
  refine ⟨hlen, fun hval => ?_⟩
  simp only [_process_single_file, hval, Except.bind]
  rw [if_neg fun hne => hne hlen.symm]
  split_ifs <;> exact ⟨_, rfl⟩

/-- C1 witness: a one-sample valid waveform with the standard config
(`fft_size = 1024`, `hop_size = 256`). -/
theorem alignment_invariant_check :
    256 ≤ 1024 ∧
      ((alignWaveform ⟨16000, 1024, 256, 1⟩ [0]).length =
          numFrames 1 1024 256 * 256 ∧
        (validateUtt ⟨16000, 1024, 256, 1⟩ ⟨"w", 1, 16000, [0]⟩ = .ok () →
          ∃ r, _process_single_file ⟨16000, 1024, 256, 1⟩
            ⟨"w", 1, 16000, [0]⟩ = .ok r)) :=
  ⟨by decide,
   alignment_invariant_of_hop_le_fft ⟨16000, 1024, 256, 1⟩
     ⟨"w", 1, 16000, [0]⟩ (by decide)⟩

/-- C1 counterexample: the claim is not true for every config.  With
`fft_size = 2` and `hop_size = 4` the valid one-sample waveform `[0]`
yields 1 frame, so `frames * hop_size = 4`, but the edge-padded
waveform has only 3 samples: the invariant fails and the length
assertion fires. -/
theorem alignment_invariant_fails_for_large_hop :
    validateUtt ⟨16000, 2, 4, 1⟩ ⟨"x", 1, 16000, [0]⟩ = .ok () ∧
      (alignWaveform ⟨16000, 2, 4, 1⟩ [0]).length ≠ numFrames 1 2 4 * 4 ∧
      _process_single_file ⟨16000, 2, 4, 1⟩ ⟨"x", 1, 16000, [0]⟩ =
        .error "AssertionError" :=
  ⟨by decide, by decide, by decide⟩

/-- C2 (amended): the dispatcher collects all outputs exactly when
every job returns normally; a job that raises (e.g. a validation
failure) propagates and the run returns its error instead of the
siblings' outputs. -/
theorem batch_ok_iff_all_jobs_ok (cfg : Config) (us : List Utt) :
    (∃ rs, parallelRun cfg us = .ok rs) ↔
      ∀ u ∈ us, ∃ r, _process_single_file cfg u = .ok r :=
  parallelRun_ok_iff cfg us

/-- C2 counterexample: in a batch of a multi-channel utterance "a"
followed by a valid utterance "b", the job for "b" alone would succeed
and write both files, yet the run aborts with the validation error of
"a" instead of preserving the sibling's outputs. -/
theorem validation_error_aborts_batch :
    _process_single_file ⟨16000, 4, 2, 1⟩ ⟨"b", 1, 16000, [0]⟩ =
        .ok ["b-wave.npy", "b-feats.npy"] ∧
      parallelRun ⟨16000, 4, 2, 1⟩
          [⟨"a", 2, 16000, [0]⟩, ⟨"b", 1, 16000, [0]⟩] =
        .error "a seems to be multi-channel signal." :=
  ⟨by decide, by decide⟩

/-- C5: a clipping-flagged utterance returns normally with no files
written, and the batch around it behaves exactly as the concatenation
of the remaining utterances' results with an empty entry in between. -/
theorem clip_skip_preserves_siblings (cfg : Config) (u : Utt)
    (hval : validateUtt cfg u = .ok ())
    (hle : cfg.hop_size ≤ cfg.fft_size)
    (hg : 0 < cfg.global_gain_scale)
    (hclip : did_clip cfg.global_gain_scale (alignWaveform cfg u.samples) = true) :
    _process_single_file cfg u = .ok [] ∧
      ∀ pre post : List Utt,
        parallelRun cfg (pre ++ u :: post) =
          (parallelRun cfg pre).bind (fun a =>
            (parallelRun cfg post).bind (fun b => .ok (a ++ [] :: b))) := by
  have hlen := alignWaveform_length cfg u.samples hle
  have hjob : _process_single_file cfg u = .ok [] := by
    simp only [_process_single_file, hval, Except.bind]
    rw [if_neg fun hne => hne hlen.symm, if_pos hg, if_pos hclip]
    rfl
  refine ⟨hjob, fun pre post => ?_⟩
  rw [parallelRun_append cfg pre (u :: post), parallelRun_cons, hjob]
  cases hpre : parallelRun cfg pre with
  | error e => simp [Except.bind]
  | ok a =>
    cases hpost : parallelRun cfg post with
    | error e => simp [Except.bind]
    | ok b => simp [Except.bind]

/-- C5 witness: peak 3/5 with gain 2 clips; the job returns normally
having written nothing. -/
theorem clip_skip_check :
    did_clip 2 (alignWaveform ⟨16000, 4, 2, 2⟩ [3/5]) = true ∧
      _process_single_file ⟨16000, 4, 2, 2⟩ ⟨"u", 1, 16000, [3/5]⟩ = .ok [] :=
  ⟨by decide,
   (clip_skip_preserves_siblings ⟨16000, 4, 2, 2⟩ ⟨"u", 1, 16000, [3/5]⟩
      (by decide) (by decide) (by decide) (by decide)).1⟩

/-- C10 witness: the extreme 16-bit samples -32768, 32767 and 0 scale
into `[-1, 1]` and pass validation. -/
theorem pcm16_scaled_check :
    (∀ v ∈ ([-32768, 32767, 0] : List ℤ), -32768 ≤ v ∧ v ≤ 32767) ∧
      maxAbs (pcmNormalize [-32768, 32767, 0]) ≤ 1 ∧
      validateUtt ⟨16000, 1024, 256, 1⟩
        ⟨"u", 1, 16000, pcmNormalize [-32768, 32767, 0]⟩ = .ok () :=
  ⟨by decide,
   (pcm16_scaled_in_range ⟨16000, 1024, 256, 1⟩ "u" [-32768, 32767, 0] (by decide)).1,
   (pcm16_scaled_in_range ⟨16000, 1024, 256, 1⟩ "u" [-32768, 32767, 0] (by decide)).2⟩

/-- C9: before gain scaling, alignment never alters existing samples:
entry `i` of the aligned waveform is sample `i` of the original for
`i < len`, and a copy of the last original sample beyond that. -/
theorem aligned_samples_eq_edge_padded (cfg : Config) (x : List ℚ)
    (hx : x ≠ []) (i : ℕ) (hi : i < (alignWaveform cfg x).length) :
    (alignWaveform cfg x).getD i 0 =
      if i < x.length then x.getD i 0 else x.getLast hx := by
  have hsplit : i < numFrames x.length cfg.fft_size cfg.hop_size * cfg.hop_size ∧
      i < (edgePad x cfg.fft_size).length := by
    unfold alignWaveform at hi
    rw [List.length_take] at hi
    exact ⟨lt_of_lt_of_le hi (min_le_left _ _), lt_of_lt_of_le hi (min_le_right _ _)⟩
  obtain ⟨hiN, hiE⟩ := hsplit
  unfold alignWaveform
  rw [List.getD_eq_getElem?_getD, List.getElem?_take_of_lt hiN]
  unfold edgePad at hiE ⊢
  by_cases hlt : i < x.length
  · rw [List.getElem?_append_left hlt, if_pos hlt, ← List.getD_eq_getElem?_getD]
  · rw [List.getElem?_append_right (Nat.le_of_not_lt hlt), if_neg hlt]
    have hrep : i - x.length < cfg.fft_size := by
      rw [List.length_append, List.length_replicate] at hiE
      omega
    rw [List.getElem?_replicate_of_lt hrep, Option.getD_some,
      List.getLastD_eq_getLast?, List.getLast?_eq_getLast x hx, Option.getD_some]

/-- C9 witness: aligning `[1/2, 1/3]` with `fft_size = 2`,
`hop_size = 1` gives three samples; index 2 lies past the original and
equals the last original sample 1/3. -/
theorem aligned_samples_check :
    ([1/2, 1/3] : List ℚ) ≠ [] ∧
      2 < (alignWaveform ⟨16000, 2, 1, 1⟩ [1/2, 1/3]).length ∧
      (alignWaveform ⟨16000, 2, 1, 1⟩ [1/2, 1/3]).getD 2 0 =
        if 2 < ([1/2, 1/3] : List ℚ).length then ([1/2, 1/3] : List ℚ).getD 2 0
        else ([1/2, 1/3] : List ℚ).getLast (by decide) :=
  ⟨by decide, by decide,
   aligned_samples_eq_edge_padded ⟨16000, 2, 1, 1⟩ [1/2, 1/3]
     (by decide) 2 (by decide)⟩

/-- C7: every entry of the feature matrix is
`log10(max(eps, mel_energy))` for the corresponding mel energy, and on
an all-zero waveform every entry equals `log10(eps)` (the amplitude
spectrogram vanishes, so every mel energy is 0). -/
theorem logmel_entries (x : ℕ → ℝ) (L fft hop : ℕ) (eps : ℝ)
    (B : ℕ → ℕ → ℝ) (heps : 0 ≤ eps) :
    (∀ t m, logmelfilterbank x L fft hop eps B t m =
        Real.logb 10 (max eps (melEnergy B x L fft hop t m))) ∧
      ((∀ n, x n = 0) → ∀ t m,
        logmelfilterbank x L fft hop eps B t m = Real.logb 10 eps) := by
  refine ⟨fun t m => rfl, fun hx t m => ?_⟩
  have hmel : melEnergy B x L fft hop t m = 0 := by
    unfold melEnergy ampSpectrogram stftEntry reflectPadded
    simp [hx]
  unfold logmelfilterbank
  rw [hmel, max_eq_left heps]

/-- C7 witness: the silent waveform with `eps = 1` and an arbitrary
zero filterbank yields `log10(1)` at entry (0, 0). -/
theorem logmel_entries_check :
    (0:ℝ) ≤ 1 ∧
      logmelfilterbank (fun _ => 0) 16000 1024 256 1 (fun _ _ => 0) 0 0 =
        Real.logb 10 1 :=
  ⟨zero_le_one,
   (logmel_entries (fun _ => 0) 16000 1024 256 1 (fun _ _ => 0) zero_le_one).2
     (fun _ => rfl) 0 0⟩

end PWG
